import Mathlib

/-
Verification of the schema-to-target-type resolution core (parser/utils.rs).

Modelling conventions:
* Rust strings are modelled as `List Char` (`RStr`); byte indices coincide with
  character indices for the ASCII data these functions are designed for.
* Fallible operations (out-of-bounds byte slices, `unwrap` on `None`) are
  modelled with `Option`: a `none` result models a Rust panic.
* The case-conversion helpers `to_snake_case` / `to_pascal_case` come from the
  external inflector crate (v0.11); they are modelled here after that crate's
  implementation (`to_case_snake_like` / `to_case_camel_like`), restricted to
  ASCII classification.
-/

abbrev RStr := List Char

def str (s : String) : RStr := s.data

/-- Model of the inflector crate's separator test `is_not_alphanumeric`. -/
def isSep (c : Char) : Bool := !c.isAlphanum

/-- Model of inflector's `next_or_previous_char_is_lowercase`: looks at the
characters on either side of index `i` of the original string, treating a
missing neighbour as the (non-lowercase) placeholder character. -/
def nextOrPrevLower (s : RStr) (i : Nat) : Bool :=
  (s.getD (i + 1) 'A').isLower || (i != 0 && (s.getD (i - 1) 'A').isLower)

/-- Model of inflector's `char_is_uppercase`: the character equals its ASCII
uppercase form — true for uppercase letters but also for digits and symbols,
never for lowercase letters. -/
def charIsUpper (c : Char) : Bool := c == c.toUpper

/-- Model of inflector's `trim_right`: trailing separator (non-alphanumeric)
characters are dropped before the snake-case loop runs. -/
def trimRightSeps (s : RStr) : RStr := (s.reverse.dropWhile isSep).reverse

/-- Model of the loop body of inflector's `to_case_snake_like` (with
`replace_with = "_"` and lowercase output): a separator character emits an
underscore and restarts a word; a `char_is_uppercase` character next to a
lowercase neighbour (looked up in the original, untrimmed string) starts a
new underscore-separated word — this matches digits too, e.g.
`fooBar3 → foo_bar_3`; every other character is emitted lowercased. -/
def snakeAux (s : RStr) : List (Nat × Char) → RStr → Bool → RStr
  | [], res, _ => res
  | (i, c) :: rest, res, first =>
    if isSep c then snakeAux s rest (res ++ [ '_' ]) true
    else if !first && charIsUpper c && nextOrPrevLower s i then
      snakeAux s rest (res ++ [ '_', c.toLower ]) false
    else snakeAux s rest (res ++ [c.toLower]) false

/-- Model of inflector's `to_snake_case`: the loop runs over the
right-trimmed string, so a separator-only name converts to the empty
string. -/
def to_snake_case (s : RStr) : RStr := snakeAux s (trimRightSeps s).enum [] true

/-- State of inflector's `to_case_camel_like` loop, specialised to the
`to_pascal_case` options (every new word is emitted capitalised). -/
structure CamelSt where
  new_word : Bool
  last_char : Char
  found : Bool
  result : RStr
deriving DecidableEq

/-- Model of the loop body of inflector's `to_case_camel_like` with the
`to_pascal_case` options: separators (after a first real character) start a
new word; leading non-alphanumerics are skipped; digits are emitted verbatim
and start a new word; a new word or a lower-to-upper boundary emits the
capitalised character; anything else is emitted lowercased. -/
def camelStep (st : CamelSt) (c : Char) : CamelSt :=
  if isSep c && st.found then { st with new_word := true, last_char := c }
  else if !st.found && !c.isAlphanum then st
  else if c.isDigit then
    { new_word := true, last_char := c, found := true, result := st.result ++ [c] }
  else if st.new_word || (st.last_char.isLower && c.isUpper && (st.last_char != ' ')) then
    { new_word := false, last_char := c, found := true, result := st.result ++ [c.toUpper] }
  else
    { new_word := false, last_char := c, found := true, result := st.result ++ [c.toLower] }

def pascalInit : CamelSt := ⟨true, ' ', false, []⟩

/-- Model of inflector's `to_pascal_case`. -/
def to_pascal_case (s : RStr) : RStr := (s.foldl camelStep pascalInit).result

/-- Model of Rust `s.replace("-", "_")` (the pattern is a single character). -/
def replaceDashes (s : RStr) : RStr := s.map (fun c => if c = '-' then '_' else c)

/-- The reserved-word set `RS_KEYWORDS` from parser/utils.rs. -/
def RS_KEYWORDS : List RStr := [
  str "abstract", str "alignof", str "as", str "become", str "box",
  str "break", str "const", str "continue", str "crate", str "do",
  str "else", str "enum", str "extern crate", str "extern", str "false",
  str "final", str "fn", str "for", str "if let", str "if",
  str "impl", str "in", str "let", str "loop", str "macro",
  str "match", str "mod", str "move", str "mut", str "offsetof",
  str "override", str "priv", str "proc", str "pub", str "pure",
  str "ref", str "return", str "Self", str "self", str "sizeof",
  str "static", str "struct", str "super", str "trait", str "true",
  str "type", str "typeof", str "unsafe", str "unsized", str "use",
  str "virtual", str "where", str "while", str "yield"]

/-- Whether a string starts with an (ASCII) digit; `false` on the empty
string. -/
def startsWithDigit (r : RStr) : Bool :=
  match r with
  | [] => false
  | c :: _ => c.isDigit

/-- The guard shared verbatim by `get_field_name` and `get_type_name`:
`none` models the panic of `result.chars().next().unwrap()` on an empty
conversion result; a leading digit or a reserved word gets an underscore
prefixed. -/
def sanitizeGuard (result : RStr) : Option RStr :=
  match result with
  | [] => none
  | c :: _ =>
    if c.isDigit = true ∨ result ∈ RS_KEYWORDS then some ('_' :: result)
    else some result

/-- `get_field_name` from parser/utils.rs. -/
def get_field_name (name : RStr) : Option RStr :=
  sanitizeGuard (to_snake_case name)

/-- `get_type_name` from parser/utils.rs. -/
def get_type_name (name : RStr) : Option RStr :=
  sanitizeGuard (to_pascal_case name)

/-- A resolved target namespace: roxmltree's `Namespace` exposes an optional
prefix (`name()`) and a URI. -/
structure Namespace where
  name : Option RStr
  uri : RStr
deriving DecidableEq

/-- The Built-in Type Table: the literal match arms of `match_type` in
parser/utils.rs, in source order (note the misspelled `xs::NOTATION` arm,
transcribed verbatim). -/
def builtinTable : List (RStr × RStr) := [
  (str "xs:hexBinary", str "String"),
  (str "xs:base64Binary", str "String"),
  (str "xs:boolean", str "bool"),
  (str "xs:integer", str "i64"),
  (str "xs:nonNegativeInteger", str "u64"),
  (str "xs:positiveInteger", str "u64"),
  (str "xs:nonPositiveInteger", str "i64"),
  (str "xs:negativeInteger", str "i64"),
  (str "xs:long", str "i64"),
  (str "xs:int", str "i32"),
  (str "xs:short", str "i16"),
  (str "xs:byte", str "i8"),
  (str "xs:unsignedLong", str "u64"),
  (str "xs:unsignedInt", str "u32"),
  (str "xs:unsignedShort", str "u16"),
  (str "xs:unsignedByte", str "u8"),
  (str "xs:decimal", str "f64"),
  (str "xs:double", str "f64"),
  (str "xs:float", str "f64"),
  (str "xs:date", str "String"),
  (str "xs:time", str "String"),
  (str "xs:dateTime", str "String"),
  (str "xs:dateTimeStamp", str "String"),
  (str "xs:duration", str "tt::Duration"),
  (str "xs:gDay", str "String"),
  (str "xs:gMonth", str "String"),
  (str "xs:gMonthDay", str "String"),
  (str "xs:gYear", str "String"),
  (str "xs:gYearMonth", str "String"),
  (str "xs:string", str "String"),
  (str "xs:normalizedString", str "String"),
  (str "xs:token", str "String"),
  (str "xs:language", str "String"),
  (str "xs:Name", str "String"),
  (str "xs:NCName", str "String"),
  (str "xs:ENTITY", str "String"),
  (str "xs:ID", str "String"),
  (str "xs:IDREF", str "String"),
  (str "xs:NMTOKEN", str "String"),
  (str "xs:anyURI", str "String"),
  (str "xs:QName", str "String"),
  (str "xs::NOTATION", str "String"),
  (str "xs:ENTITIES", str "Vec<String>"),
  (str "xs:IDREFS", str "Vec<String>"),
  (str "xs:NMTOKENS", str "Vec<String>")]

/-- Index of the first colon of a string, modelling Rust `s.find(':')`. -/
def firstColonIdx : RStr → Option Nat
  | [] => none
  | c :: rest =>
    if c == ':' then some 0 else (firstColonIdx rest).map (· + 1)

/-- The inner `replace` helper of `match_type`: if the token has a colon,
reassemble as `prefix::PascalLocal` (the slice `&s[index..]` keeps the colon);
otherwise pascal-case the whole token, hyphens first normalised to
underscores. -/
def mtReplace (s : RStr) : RStr :=
  match firstColonIdx s with
  | some i => s.take i ++ ':' :: ':' :: to_pascal_case (replaceDashes (s.drop i))
  | none => to_pascal_case (replaceDashes s)

/-- Model of Rust `x.starts_with(p)` (`startsWith p x` tests that `p` is a
prefix of `x`). -/
def startsWith : RStr → RStr → Bool
  | [], _ => true
  | _ :: _, [] => false
  | p :: ps, x :: xs => p == x && startsWith ps xs

/-- `match_type` from parser/utils.rs.  The Rust `match` on string literals is
modelled as a lookup in `builtinTable` (its keys are pairwise distinct).  The
unguarded byte slice `&x[name.len() + 1 ..]` is modelled with an explicit
bounds check whose failure (`none`) is the Rust panic. -/
def match_type (type_name : RStr) (target_ns : Option Namespace) : Option RStr :=
  match builtinTable.lookup type_name with
  | some t => some t
  | none =>
    match target_ns.bind Namespace.name with
    | some nm =>
      if startsWith nm type_name then
        if nm.length + 1 ≤ type_name.length then
          some (to_pascal_case (type_name.drop (nm.length + 1)))
        else none
      else some (mtReplace type_name)
    | none => some (mtReplace type_name)

/-- Model of Rust `str::split_whitespace`: maximal runs of non-whitespace
characters, in order, with no empty items.  The accumulator holds the current
word reversed. -/
def splitWsAux : RStr → RStr → List RStr
  | [], cur => if cur = [] then [] else [cur.reverse]
  | c :: rest, cur =>
    if c.isWhitespace then
      if cur = [] then splitWsAux rest [] else cur.reverse :: splitWsAux rest []
    else splitWsAux rest (c :: cur)

def splitWhitespace (s : RStr) : List RStr := splitWsAux s []

def indentStr (ind : Nat) : RStr := List.replicate ind ' '

/-- The word loop of `split_comment_line` from parser/utils.rs: `splitted` is
the output built so far, `cur` is `current_line_length`.  A word is appended
to the current line when `current_line_length + len < max_len`, otherwise a
new physical line `indent // word` is started. -/
def scl_loop (m ind : Nat) : List RStr → RStr → Nat → RStr
  | [], splitted, _ => splitted
  | w :: ws, splitted, cur =>
    if cur + w.length < m then
      scl_loop m ind ws (splitted ++ ' ' :: w) (cur + 1 + w.length)
    else
      scl_loop m ind ws (splitted ++ '\n' :: (indentStr ind ++ '/' :: '/' :: ' ' :: w))
        (ind + 3 + w.length)

/-- `split_comment_line` from parser/utils.rs. -/
def split_comment_line (s : RStr) (m ind : Nat) : RStr :=
  scl_loop m ind (splitWhitespace s) (indentStr ind ++ [ '/', '/' ]) (ind + 2) ++ [ '\n' ]

/-- Split into lines at each newline character (model of Rust `str::lines`,
except that a trailing empty line is kept; `get_formatted_comment` filters
length-1-or-less lines away, so this difference is invisible there). -/
def splitLinesAux : RStr → RStr → List RStr
  | [], cur => [cur.reverse]
  | c :: rest, cur =>
    if c == '\n' then cur.reverse :: splitLinesAux rest []
    else splitLinesAux rest (c :: cur)

/-- Model of Rust `str::trim` (ASCII whitespace). -/
def trimStr (s : RStr) : RStr :=
  ((s.dropWhile Char.isWhitespace).reverse.dropWhile Char.isWhitespace).reverse

/-- `get_formatted_comment` from parser/utils.rs: trim each line, keep lines
longer than one character, wrap each with an 80-column budget and no indent,
and concatenate. -/
def get_formatted_comment (doc : Option RStr) : RStr :=
  ((((splitLinesAux (doc.getD []) []).map trimStr).filter
      (fun l => decide (1 < l.length))).map
    (fun l => split_comment_line l 80 0)).foldl (· ++ ·) []

/-- The suffix that the `split_comment_line` loop appends after the text built
so far, as a function of the remaining words and the running line length. -/
def sclTail (m ind : Nat) : List RStr → Nat → RStr
  | [], _ => []
  | w :: ws, cur =>
    if cur + w.length < m then
      (' ' :: w) ++ sclTail m ind ws (cur + 1 + w.length)
    else
      ('\n' :: (indentStr ind ++ '/' :: '/' :: ' ' :: w)) ++ sclTail m ind ws (ind + 3 + w.length)

/-- Render one comment line from its list of words: the indent, the `//`
prefix, and one leading space before each word. -/
def renderLine (ind : Nat) (ws : List RStr) : RStr :=
  ws.foldl (fun acc w => acc ++ ' ' :: w) (indentStr ind ++ [ '/', '/' ])

/-- Join rendered lines with a newline separator. -/
def joinLines : List RStr → RStr
  | [] => []
  | [l] => l
  | l :: ls => l ++ '\n' :: joinLines ls

/-- Concatenate the words of all lines, in order. -/
def flattenWords : List (List RStr) → List RStr
  | [] => []
  | l :: ls => l ++ flattenWords ls

/-- Line-level restatement of the `split_comment_line` loop: the same greedy
rule (`current length + word length < max` appends to the current line,
anything else starts a fresh line) producing the list of lines, each a list of
words.  `cur` holds the words of the current line in reverse. -/
def greedyAux (m ind : Nat) : List RStr → List RStr → Nat → List (List RStr)
  | [], cur, _ => [cur.reverse]
  | w :: ws, cur, len =>
    if len + w.length < m then greedyAux m ind ws (w :: cur) (len + 1 + w.length)
    else cur.reverse :: greedyAux m ind ws [w] (ind + 3 + w.length)

def greedy (m ind : Nat) (ws : List RStr) : List (List RStr) :=
  greedyAux m ind ws [] (ind + 2)

/-- Classification of a schema node by its tag, as performed by the
repository's `xsd_elements` module.  Modelled from the spec: that module is
not under src/; only the classification outcome matters here, so nodes carry
it directly (`schema` is the schema root, `attributeDecl` an attribute
declaration). -/
inductive ElementType where
  | schema
  | attributeDecl
  | elementDecl
  | unknown
deriving DecidableEq

/-- One ancestor element of a node: its classification and its optional
`name` attribute.  A roxmltree node is represented for `get_parent_name` by
its chain of ancestor elements, nearest first (`parent_element` returns the
head, and recursion moves along the chain). -/
structure AncElem where
  xsd_type : ElementType
  nameAttr : Option RStr
deriving DecidableEq

/-- `get_parent_name` from parser/utils.rs: climb the ancestor elements; the
schema root yields the sentinel `SchemaElement`, a named ancestor yields its
name, and running out of ancestors yields the sentinel `UnsupportedName`. -/
def get_parent_name : List AncElem → RStr
  | [] => str "UnsupportedName"
  | a :: rest =>
    if a.xsd_type = ElementType.schema then str "SchemaElement"
    else
      match a.nameAttr with
      | some s => s
      | none => get_parent_name rest

/-- A generated field record (only the parts relevant here). -/
structure StructField where
  name : RStr
  type_name : RStr
deriving DecidableEq

/-- The entity shapes the external node parser can return. -/
inductive RsEntity where
  | structField : StructField → RsEntity
  | otherEntity : RsEntity
deriving DecidableEq

/-- A direct child of a node, as seen by `attributes_to_fields`. -/
structure ChildNode where
  is_element : Bool
  xsd_type : ElementType
  nameAttr : RStr
deriving DecidableEq

/-- The field record the external parser produces for an attribute child. -/
def fieldFor (n : ChildNode) (_tns : Option Namespace) : StructField :=
  ⟨n.nameAttr, []⟩

/-- Modelled from the spec: `parse_node` (parser/parser.rs, not under src/)
parses one attribute-bearing child node into a field-shaped entity; for any
other node shape it returns some other entity. -/
def parse_node (n : ChildNode) (tns : Option Namespace) : RsEntity :=
  if n.xsd_type = ElementType.attributeDecl then RsEntity.structField (fieldFor n tns)
  else RsEntity.otherEntity

/-- The map-and-collect of `attributes_to_fields`: `none` models the
`unreachable!` panic when the parser returns a non-field entity. -/
def collectFields (tns : Option Namespace) : List ChildNode → Option (List StructField)
  | [] => some []
  | n :: rest =>
    match parse_node n tns, collectFields tns rest with
    | RsEntity.structField sf, some fs => some (sf :: fs)
    | _, _ => none

/-- `attributes_to_fields` from parser/utils.rs: filter the direct children to
element children classified as attribute declarations and parse each into a
field. -/
def attributes_to_fields (children : List ChildNode) (tns : Option Namespace) :
    Option (List StructField) :=
  collectFields tns
    (children.filter (fun n => n.is_element && n.xsd_type == ElementType.attributeDecl))

/-- Relation between two `to_case_camel_like` states that differ at most by
having seen a hyphen versus an underscore as the previous character. -/
def stRel (s t : CamelSt) : Prop :=
  s.new_word = t.new_word ∧ s.found = t.found ∧ s.result = t.result ∧
    (s.last_char = t.last_char ∨ (s.last_char = '-' ∧ t.last_char = '_'))

theorem startsWith_length : ∀ p x : RStr, startsWith p x = true → p.length ≤ x.length := by
  intro p
  induction p with
  | nil => intro x _; simp
  | cons a ps ih =>
    intro x h
    cases x with
    | nil => simp [startsWith] at h
    | cons b xs =>
      simp only [startsWith, Bool.and_eq_true] at h
      simpa using ih xs h.2

theorem startsWith_eq : ∀ p x : RStr, startsWith p x = true → x.length ≤ p.length → x = p := by
  intro p
  induction p with
  | nil =>
    intro x _ hlen
    cases x with
    | nil => rfl
    | cons b xs => simp at hlen
  | cons a ps ih =>
    intro x h hlen
    cases x with
    | nil => simp [startsWith] at h
    | cons b xs =>
      simp only [startsWith, Bool.and_eq_true, beq_iff_eq] at h
      simp only [List.length_cons, Nat.add_le_add_iff_right] at hlen
      rw [h.1, ih xs h.2 hlen]

theorem startsWith_append : ∀ p l : RStr, startsWith p (p ++ l) = true := by
  intro p l
  induction p with
  | nil => rfl
  | cons a ps ih => simpa [startsWith] using ih

theorem firstColonIdx_of_no_colon : ∀ t : RStr, (∀ c ∈ t, c ≠ ':') → firstColonIdx t = none := by
  intro t
  induction t with
  | nil => intro _; rfl
  | cons c rest ih =>
    intro h
    have hc : c ≠ ':' := h c (List.mem_cons_self c rest)
    have hr := ih (fun d hd => h d (List.mem_cons_of_mem c hd))
    simp [firstColonIdx, hc, hr]

theorem firstColonIdx_append : ∀ pre loc : RStr, (∀ c ∈ pre, c ≠ ':') →
    firstColonIdx (pre ++ ':' :: loc) = some pre.length := by
  intro pre loc
  induction pre with
  | nil => intro _; simp [firstColonIdx]
  | cons c rest ih =>
    intro h
    have hc : c ≠ ':' := h c (List.mem_cons_self c rest)
    have hr := ih (fun d hd => h d (List.mem_cons_of_mem c hd))
    simp [firstColonIdx, hc, hr]

theorem keyword_head_ne_underscore : ∀ k ∈ RS_KEYWORDS, k.head? ≠ some '_' := by decide

theorem underscore_not_keyword (r : RStr) : ('_' :: r) ∉ RS_KEYWORDS := by
  intro hmem
  exact keyword_head_ne_underscore ('_' :: r) hmem rfl

theorem camelStep_rel (c : Char) (st₁ st₂ : CamelSt) (h : stRel st₁ st₂) :
    stRel (camelStep st₁ c) (camelStep st₂ (if c = '-' then '_' else c)) := by
  obtain ⟨nw₁, lc₁, fd₁, res₁⟩ := st₁
  obtain ⟨nw₂, lc₂, fd₂, res₂⟩ := st₂
  obtain ⟨h1, h2, h3, h4⟩ := h
  dsimp only at h1 h2 h3 h4
  subst h1; subst h2; subst h3
  by_cases hc : c = '-'
  · subst hc
    rw [if_pos rfl]
    cases fd₁ with
    | false =>
      simp only [camelStep, isSep, show ('-' : Char).isAlphanum = false from by decide,
        show ('_' : Char).isAlphanum = false from by decide, Bool.not_false, Bool.true_and,
        Bool.and_false, Bool.not_true, if_false, Bool.false_and, Bool.not_eq_true]
      simp only [if_true, Bool.false_eq_true, if_false]
      exact ⟨rfl, rfl, rfl, h4⟩
    | true =>
      simp only [camelStep, isSep, show ('-' : Char).isAlphanum = false from by decide,
        show ('_' : Char).isAlphanum = false from by decide, Bool.not_false, Bool.and_true,
        if_true]
      exact ⟨rfl, rfl, rfl, Or.inr ⟨rfl, rfl⟩⟩
  · rw [if_neg hc]
    rcases h4 with heq | ⟨e1, e2⟩
    · subst heq
      exact ⟨rfl, rfl, rfl, Or.inl rfl⟩
    · subst e1; subst e2
      by_cases hs : isSep c = true
      · have halpha : c.isAlphanum = false := by
          simpa [isSep] using hs
        cases fd₁ with
        | true =>
          simp only [camelStep, hs, Bool.and_true, if_true]
          exact ⟨rfl, rfl, rfl, Or.inl rfl⟩
        | false =>
          simp only [camelStep, hs, Bool.and_false, Bool.false_eq_true, if_false,
            Bool.not_false, halpha, Bool.true_and, if_true]
          exact ⟨rfl, rfl, rfl, Or.inr ⟨rfl, rfl⟩⟩
      · have hs' : isSep c = false := by
          cases hval : isSep c
          · rfl
          · exact absurd hval hs
        have halpha : c.isAlphanum = true := by
          simpa [isSep] using hs'
        simp only [camelStep, hs', Bool.false_and, Bool.false_eq_true, if_false, halpha,
          Bool.not_true, Bool.and_false,
          show ('-' : Char).isLower = false from by decide,
          show ('_' : Char).isLower = false from by decide, Bool.or_false]
        by_cases hd : c.isDigit = true
        · simp only [hd, if_true]
          exact ⟨rfl, rfl, rfl, Or.inl rfl⟩
        · have hd' : c.isDigit = false := by
            cases hval : c.isDigit
            · rfl
            · exact absurd hval hd
          simp only [hd', Bool.false_eq_true, if_false]
          by_cases hnw : nw₁ = true
          · rw [if_pos hnw]
            exact ⟨rfl, rfl, rfl, Or.inl rfl⟩
          · rw [if_neg hnw]
            exact ⟨rfl, rfl, rfl, Or.inl rfl⟩

theorem camelFold_rel : ∀ (s : RStr) (st₁ st₂ : CamelSt), stRel st₁ st₂ →
    stRel (s.foldl camelStep st₁) ((replaceDashes s).foldl camelStep st₂) := by
  intro s
  induction s with
  | nil =>
    intro st₁ st₂ h
    simpa [replaceDashes] using h
  | cons c t ih =>
    intro st₁ st₂ h
    have hrw : replaceDashes (c :: t) = (if c = '-' then '_' else c) :: replaceDashes t := by
      simp [replaceDashes]
    rw [hrw, List.foldl_cons, List.foldl_cons]
    exact ih _ _ (camelStep_rel c st₁ st₂ h)

/-- Hyphens and underscores are interchangeable separators for
`to_pascal_case`: normalising hyphens first does not change the result. -/
theorem pascal_replaceDashes (s : RStr) :
    to_pascal_case (replaceDashes s) = to_pascal_case s := by
  have h := camelFold_rel s pascalInit pascalInit ⟨rfl, rfl, rfl, Or.inl rfl⟩
  exact h.2.2.1.symm

/-- A leading colon is skipped by `to_pascal_case`. -/
theorem pascal_cons_colon (l : RStr) : to_pascal_case (':' :: l) = to_pascal_case l := by
  rw [to_pascal_case, to_pascal_case, List.foldl_cons,
    show camelStep pascalInit ':' = pascalInit from by decide]

theorem renderLine_append_one (ind : Nat) (l : List RStr) (w : RStr) :
    renderLine ind (l ++ [w]) = renderLine ind l ++ ' ' :: w := by
  simp [renderLine, List.foldl_append]

theorem renderLine_nil_length (ind : Nat) : (renderLine ind []).length = ind + 2 := by
  simp [renderLine, indentStr]

theorem renderLine_snoc_length (ind : Nat) (l : List RStr) (w : RStr) :
    (renderLine ind (l ++ [w])).length = (renderLine ind l).length + 1 + w.length := by
  rw [renderLine_append_one]
  simp
  omega

theorem renderLine_single_length (ind : Nat) (w : RStr) :
    (renderLine ind [w]).length = ind + 3 + w.length := by
  have h := renderLine_snoc_length ind [] w
  simp only [List.nil_append] at h
  rw [h, renderLine_nil_length]

theorem greedyAux_ne_nil (m ind : Nat) :
    ∀ (ws : List RStr) (cur : List RStr) (len : Nat), greedyAux m ind ws cur len ≠ [] := by
  intro ws
  induction ws with
  | nil => intro cur len; simp [greedyAux]
  | cons w rest ih =>
    intro cur len
    simp only [greedyAux]
    split
    · exact ih _ _
    · simp

theorem joinLines_cons (a : RStr) (ls : List RStr) (h : ls ≠ []) :
    joinLines (a :: ls) = a ++ '\n' :: joinLines ls := by
  cases ls with
  | nil => exact absurd rfl h
  | cons b t => rfl

theorem scl_loop_eq (m ind : Nat) :
    ∀ (ws : List RStr) (p : RStr) (cur : Nat),
      scl_loop m ind ws p cur = p ++ sclTail m ind ws cur := by
  intro ws
  induction ws with
  | nil => intro p cur; simp [scl_loop, sclTail]
  | cons w rest ih =>
    intro p cur
    simp only [scl_loop, sclTail]
    split
    · rw [ih]
      simp [List.append_assoc]
    · rw [ih]
      simp [List.append_assoc]

theorem render_tail (m ind : Nat) :
    ∀ (ws : List RStr) (cur : List RStr) (len : Nat),
      renderLine ind cur.reverse ++ sclTail m ind ws len =
        joinLines ((greedyAux m ind ws cur len).map (renderLine ind)) := by
  intro ws
  induction ws with
  | nil =>
    intro cur len
    simp [sclTail, greedyAux, joinLines]
  | cons w rest ih =>
    intro cur len
    simp only [sclTail, greedyAux]
    split
    · rw [← ih (w :: cur) (len + 1 + w.length)]
      rw [List.reverse_cons, renderLine_append_one]
      simp [List.append_assoc]
    · rw [List.map_cons]
      rw [joinLines_cons _ _ (by
        simp only [ne_eq, List.map_eq_nil_iff]
        exact greedyAux_ne_nil m ind rest [w] (ind + 3 + w.length))]
      rw [← ih [w] (ind + 3 + w.length)]
      have hsingle : renderLine ind [w].reverse = indentStr ind ++ '/' :: '/' :: ' ' :: w := by
        simp [renderLine, indentStr, List.append_assoc]
      rw [hsingle]
      simp [List.append_assoc]

/-- The `split_comment_line` loop realises exactly the line-level greedy
wrapping `greedy`: the output is the rendered greedy lines joined by
newlines, plus the final newline. -/
theorem scl_render (s : RStr) (m ind : Nat) :
    split_comment_line s m ind =
      joinLines ((greedy m ind (splitWhitespace s)).map (renderLine ind)) ++ [ '\n' ] := by
  rw [split_comment_line, scl_loop_eq, greedy]
  rw [← render_tail m ind (splitWhitespace s) [] (ind + 2)]
  rfl

theorem flattenWords_greedyAux (m ind : Nat) :
    ∀ (ws : List RStr) (cur : List RStr) (len : Nat),
      flattenWords (greedyAux m ind ws cur len) = cur.reverse ++ ws := by
  intro ws
  induction ws with
  | nil => intro cur len; simp [greedyAux, flattenWords]
  | cons w rest ih =>
    intro cur len
    simp only [greedyAux]
    split
    · rw [ih]
      simp
    · simp only [flattenWords]
      rw [ih]
      simp

/-- Words are never split or lost: flattening the greedy lines gives back the
word list. -/
theorem flattenWords_greedy (m ind : Nat) (ws : List RStr) :
    flattenWords (greedy m ind ws) = ws := by
  rw [greedy, flattenWords_greedyAux]
  rfl

theorem greedyAux_lines_bound (m ind : Nat) :
    ∀ (ws : List RStr) (cur : List RStr) (len : Nat),
      len = (renderLine ind cur.reverse).length →
      (len ≤ m ∨ ∃ w, cur = [w]) →
      ∀ line ∈ greedyAux m ind ws cur len,
        (renderLine ind line).length ≤ m ∨ ∃ w, line = [w] ∧ m < ind + 3 + w.length := by
  intro ws
  induction ws with
  | nil =>
    intro cur len hlen hinv line hline
    simp only [greedyAux, List.mem_singleton] at hline
    subst hline
    rcases hinv with hle | ⟨w, hw⟩
    · exact Or.inl (hlen ▸ hle)
    · subst hw
      rcases Nat.lt_or_ge m (ind + 3 + w.length) with hgt | hle
      · exact Or.inr ⟨w, rfl, hgt⟩
      · left
        rw [show ([w] : List RStr).reverse = [w] from rfl, renderLine_single_length]
        exact hle
  | cons w rest ih =>
    intro cur len hlen hinv line hline
    simp only [greedyAux] at hline
    split at hline
    · refine ih (w :: cur) (len + 1 + w.length) ?_ ?_ line hline
      · rw [List.reverse_cons, renderLine_snoc_length, ← hlen]
      · left
        omega
    · rcases List.mem_cons.mp hline with hl | hl
      · subst hl
        rcases hinv with hle | ⟨v, hv⟩
        · exact Or.inl (hlen ▸ hle)
        · subst hv
          rcases Nat.lt_or_ge m (ind + 3 + v.length) with hgt | hle
          · exact Or.inr ⟨v, rfl, hgt⟩
          · left
            rw [show ([v] : List RStr).reverse = [v] from rfl, renderLine_single_length]
            exact hle
      · refine ih [w] (ind + 3 + w.length) ?_ ?_ line hl
        · rw [show ([w] : List RStr).reverse = [w] from rfl, renderLine_single_length]
        · exact Or.inr ⟨w, rfl⟩

theorem sanitizeGuard_ok (res r : RStr) (h : sanitizeGuard res = some r) :
    startsWithDigit r = false ∧ r ∉ RS_KEYWORDS := by
  cases res with
  | nil => simp [sanitizeGuard] at h
  | cons c cs =>
    rw [sanitizeGuard] at h
    by_cases hg : c.isDigit = true ∨ (c :: cs) ∈ RS_KEYWORDS
    · rw [if_pos hg] at h
      injection h with h'
      subst h'
      exact ⟨rfl, underscore_not_keyword _⟩
    · rw [if_neg hg] at h
      injection h with h'
      subst h'
      push_neg at hg
      refine ⟨?_, hg.2⟩
      rw [startsWithDigit]
      cases hval : c.isDigit
      · rfl
      · exact absurd hval hg.1

theorem collectFields_attrs (tns : Option Namespace) :
    ∀ l : List ChildNode, (∀ n ∈ l, n.xsd_type = ElementType.attributeDecl) →
      collectFields tns l = some (l.map (fun n => fieldFor n tns)) := by
  intro l
  induction l with
  | nil => intro _; rfl
  | cons n rest ih =>
    intro h
    have hn := h n (List.mem_cons_self n rest)
    have hr := ih (fun d hd => h d (List.mem_cons_of_mem n hd))
    simp only [collectFields, List.map_cons]
    rw [parse_node, if_pos hn, hr]

/-- C1: every token actually present in the Built-in Type Table maps to its
table entry for every target-namespace argument (table lookup precedes all
namespace reasoning) — but the table misspells the NOTATION builtin as
`xs::NOTATION`, so the genuine builtin token `xs:NOTATION` claimed by the
spec falls through to namespace-based resolution: it yields `xs::Notation`
with no namespace (and `Notation` when the resolved target prefix is `xs`),
not the mapped `String`. -/
theorem c1_builtin_types :
    (∀ tns : Option Namespace,
        builtinTable.map (fun e => match_type e.1 tns) =
          builtinTable.map (fun e => some e.2))
    ∧ match_type (str "xs:NOTATION") none = some (str "xs::Notation")
    ∧ match_type (str "xs:NOTATION") (some ⟨some (str "xs"), str "u"⟩) = some (str "Notation")
    ∧ match_type (str "xs::NOTATION") none = some (str "String") := by
  refine ⟨?_, by decide, by decide, by decide⟩
  intro tns
  have hall : ∀ e ∈ builtinTable, builtinTable.lookup e.1 = some e.2 := by decide
  apply List.map_congr_left
  intro e he
  have h := hall e he
  simp [match_type, h]

/-- C2 counterexample: the raw name `-` is non-empty, yet `get_type_name`
panics on it (its pascal-case conversion is empty), so the claim's guarantee
for every non-empty raw name fails. -/
theorem c2_cex : get_type_name (str "-") = none ∧ str "-" ≠ ([] : RStr) := by decide

/-- C2 (amended): whenever `get_field_name` (resp. `get_type_name`) returns a
result — that is, whenever the case-converted form is non-empty — the result
does not start with a digit and is not a reserved word, and the guard runs on
the case-converted result (`Match` snake-cases to the keyword `match` and is
returned as `_match`). -/
theorem c2_sanitizer_guard :
    (∀ n r : RStr, get_field_name n = some r →
        startsWithDigit r = false ∧ r ∉ RS_KEYWORDS)
    ∧ (∀ n r : RStr, get_type_name n = some r →
        startsWithDigit r = false ∧ r ∉ RS_KEYWORDS)
    ∧ get_field_name (str "Match") = some (str "_match") := by
  refine ⟨?_, ?_, by decide⟩
  · intro n r h
    exact sanitizeGuard_ok (to_snake_case n) r h
  · intro n r h
    exact sanitizeGuard_ok (to_pascal_case n) r h

/-- C2 witness: a concrete application of the guard property. -/
theorem c2_sanitizer_guard_witness :
    startsWithDigit (str "foo_bar") = false ∧ (str "foo_bar") ∉ RS_KEYWORDS :=
  c2_sanitizer_guard.1 (str "fooBar") (str "foo_bar") (by decide)

/-- C9 counterexample: the token `ns:` starts with the resolved prefix `ns`
and is not strictly longer than prefix-plus-separator (length 3 = 2 + 1), yet
`match_type` does not panic there: the slice `x[3..]` of a length-3 string is
the valid empty slice and the function returns the empty identifier. -/
theorem c9_cex :
    startsWith (str "ns") (str "ns:") = true
    ∧ (str "ns:").length ≤ (str "ns").length + 1
    ∧ match_type (str "ns:") (some ⟨some (str "ns"), str "u"⟩) = some [] := by decide

/-- C9 (amended): for a non-builtin token that starts with the resolved
target prefix, `match_type` panics (returns `none`) exactly when the token is
strictly shorter than prefix-plus-separator, i.e. exactly when it equals the
prefix; so the function is indeed partial on such inputs. -/
theorem c9_panic_iff (p uri x : RStr) (h1 : builtinTable.lookup x = none)
    (h2 : startsWith p x = true) :
    match_type x (some ⟨some p, uri⟩) = none ↔ x = p := by
  have hge := startsWith_length p x h2
  unfold match_type
  rw [h1]
  show (if startsWith p x = true then _ else _) = none ↔ x = p
  rw [h2, if_pos rfl]
  constructor
  · intro h
    by_cases hle : p.length + 1 ≤ x.length
    · rw [if_pos hle] at h
      exact absurd h (by simp)
    · exact startsWith_eq p x h2 (by omega)
  · intro h
    subst h
    rw [if_neg (by omega)]

/-- C9 witness: with resolved prefix `ns`, the token `ns` itself makes
`match_type` panic. -/
theorem c9_panic_iff_witness :
    match_type (str "ns") (some ⟨some (str "ns"), str "u"⟩) = none :=
  (c9_panic_iff (str "ns") (str "u") (str "ns") (by decide) (by decide)).mpr rfl

/-- C10: non-emptiness of the raw name is not a sufficient precondition for
`get_field_name` and `get_type_name`: on the non-empty, separator-only name
`-` both case conversions yield the empty string (snake casing because the
trailing-separator trim empties the input, pascal casing because leading
non-alphanumerics are skipped), so the `unwrap` of the first character
panics and both functions are partial even on non-empty input. -/
theorem c10_partiality :
    str "-" ≠ ([] : RStr)
    ∧ to_snake_case (str "-") = []
    ∧ to_pascal_case (str "-") = []
    ∧ get_field_name (str "-") = none
    ∧ get_type_name (str "-") = none := by decide

/-- C3 counterexample: with resolved prefix `ns`, the bare token `nsFoo`
itself starts with the prefix text, so `match_type` strips three characters
from it (`Oo`) instead of resolving it like the local part of `ns:nsFoo`
(`NsFoo`); the claimed equivalence fails for such local names. -/
theorem c3_cex :
    match_type (str "ns:nsFoo") (some ⟨some (str "ns"), str "u"⟩) = some (str "NsFoo")
    ∧ match_type (str "nsFoo") (some ⟨some (str "ns"), str "u"⟩) = some (str "Oo")
    ∧ str "NsFoo" ≠ str "Oo" := by decide

/-- Reduction of `mtReplace` when the token has a colon. -/
theorem mtReplace_some (s : RStr) (i : Nat) (h : firstColonIdx s = some i) :
    mtReplace s = s.take i ++ ':' :: ':' :: to_pascal_case (replaceDashes (s.drop i)) := by
  rw [mtReplace, h]

/-- Reduction of `mtReplace` when the token has no colon. -/
theorem mtReplace_none (s : RStr) (h : firstColonIdx s = none) :
    mtReplace s = to_pascal_case (replaceDashes s) := by
  rw [mtReplace, h]

/-- C3 (amended): for a target namespace with resolved prefix `p` and a
colon-free local name `t` that does not itself begin with the prefix text
(and with both tokens outside the Built-in Type Table), resolving the
qualified token `p:t` equals resolving the bare token `t`. -/
theorem c3_same_ns_strip (p t uri : RStr)
    (h1 : builtinTable.lookup (p ++ ':' :: t) = none)
    (h2 : builtinTable.lookup t = none)
    (h3 : ∀ c ∈ t, c ≠ ':')
    (h4 : startsWith p t = false) :
    match_type (p ++ ':' :: t) (some ⟨some p, uri⟩) =
      match_type t (some ⟨some p, uri⟩) := by
  have hdrop : (p ++ ':' :: t).drop (p.length + 1) = t := by
    rw [show p ++ ':' :: t = (p ++ [ ':' ]) ++ t by simp]
    rw [show p.length + 1 = (p ++ [ ':' ]).length by simp]
    exact List.drop_left _ _
  have hL : match_type (p ++ ':' :: t) (some ⟨some p, uri⟩) = some (to_pascal_case t) := by
    unfold match_type
    rw [h1]
    show (if startsWith p (p ++ ':' :: t) = true then _ else _) = _
    rw [startsWith_append p (':' :: t), if_pos rfl]
    have hlen : p.length + 1 ≤ (p ++ ':' :: t).length := by
      rw [List.length_append, List.length_cons]
      omega
    rw [if_pos hlen, hdrop]
  have hR : match_type t (some ⟨some p, uri⟩) =
      some (to_pascal_case (replaceDashes t)) := by
    unfold match_type
    rw [h2]
    show (if startsWith p t = true then _ else _) = _
    rw [h4]
    simp only [Bool.false_eq_true, if_false]
    rw [mtReplace_none t (firstColonIdx_of_no_colon t h3)]
  rw [hL, hR, pascal_replaceDashes]

/-- C3 witness: `ns:Foo` and `Foo` resolve identically under prefix `ns`. -/
theorem c3_same_ns_strip_witness :
    match_type (str "ns:Foo") (some ⟨some (str "ns"), str "u"⟩) =
      match_type (str "Foo") (some ⟨some (str "ns"), str "u"⟩) :=
  c3_same_ns_strip (str "ns") (str "Foo") (str "u") (by decide) (by decide) (by decide)
    (by decide)

/-- C4 counterexample: with resolved prefix `oth` (different from `other`)
the token `other:Foo` nevertheless begins with the prefix text, so
`match_type` takes the prefix-stripping branch and returns `RFoo`, which is
too short to contain the claimed cross-namespace identifier `other::Foo`. -/
theorem c4_cex :
    match_type (str "other:Foo") (some ⟨some (str "oth"), str "u"⟩) = some (str "RFoo")
    ∧ (str "RFoo").length < (str "other::Foo").length
    ∧ str "oth" ≠ str "other" := by decide

/-- C4 (amended): for a non-builtin token `pre:loc` (with colon-free prefix
part `pre`) that does not begin with the resolved target prefix — or when no
target namespace or prefix is supplied — `match_type` splits at the first
colon and returns `pre::PascalLoc` with the local part pascal-cased and
hyphens normalised. -/
theorem c4_cross_ns (pre loc : RStr) (tns : Option Namespace)
    (h1 : builtinTable.lookup (pre ++ ':' :: loc) = none)
    (h2 : ∀ c ∈ pre, c ≠ ':')
    (h3 : tns.bind Namespace.name = none ∨
      ∃ p, tns.bind Namespace.name = some p ∧ startsWith p (pre ++ ':' :: loc) = false) :
    match_type (pre ++ ':' :: loc) tns =
      some (pre ++ ':' :: ':' :: to_pascal_case (replaceDashes loc)) := by
  have hrep : mtReplace (pre ++ ':' :: loc) =
      pre ++ ':' :: ':' :: to_pascal_case (replaceDashes loc) := by
    rw [mtReplace_some (pre ++ ':' :: loc) pre.length (firstColonIdx_append pre loc h2)]
    rw [show (pre ++ ':' :: loc).take pre.length = pre from List.take_left pre (':' :: loc)]
    rw [show (pre ++ ':' :: loc).drop pre.length = ':' :: loc from List.drop_left pre (':' :: loc)]
    rw [show replaceDashes (':' :: loc) = ':' :: replaceDashes loc from by
      simp [replaceDashes]]
    rw [pascal_cons_colon]
  unfold match_type
  rw [h1]
  rcases h3 with hnone | ⟨p, hp, hsw⟩
  · rw [hnone]
    show some (mtReplace (pre ++ ':' :: loc)) = _
    rw [hrep]
  · rw [hp]
    show (if startsWith p (pre ++ ':' :: loc) = true then _ else _) = _
    rw [hsw]
    simp only [Bool.false_eq_true, if_false]
    rw [hrep]

/-- C4 witness: `other:Foo` under resolved prefix `ns` resolves to the
cross-namespace identifier `other::Foo`. -/
theorem c4_cross_ns_witness :
    match_type (str "other:Foo") (some ⟨some (str "ns"), str "u"⟩) =
      some (str "other::Foo") :=
  c4_cross_ns (str "other") (str "Foo") (some ⟨some (str "ns"), str "u"⟩) (by decide)
    (by decide) (Or.inr ⟨str "ns", rfl, by decide⟩)

/-- C5 counterexample: with a width budget of 6 the word `abc` is appended to
the initial comment prefix (`current_line_length + word_length = 5 < 6`) even
though the claimed break test `current_line_length + 1 + word_length < 6`
fails (`6 < 6` is false): the separator space is not counted, so the output
is a single physical line, not the two lines the claim predicts. -/
theorem c5_cex :
    split_comment_line (str "abc") 6 0 = str "// abc\n"
    ∧ ¬ (0 + 2 + 1 + (str "abc").length < 6)
    ∧ str "// abc\n" ≠ str "//\n// abc\n" := by decide

/-- C5 (amended): a word is appended to the current physical line exactly
when `current_line_length + word_length < max_width` — the separator space is
not counted in the break test, so an appended line may reach exactly
`max_width` — otherwise a new physical line is started with that word:
`split_comment_line` renders precisely the lines of the greedy wrapper
`greedy`, which appends under that test. -/
theorem c5_greedy_wrap (s : RStr) (m ind : Nat) :
    split_comment_line s m ind =
      joinLines ((greedy m ind (splitWhitespace s)).map (renderLine ind)) ++ [ '\n' ] :=
  scl_render s m ind

/-- C6 counterexample: with width budget 1 the output for input `a` starts
with the word-free prefix line `//`, whose length 2 exceeds the budget even
though it contains no word at all — the claim's only allowed exception (a
single over-long word) does not cover it. -/
theorem c6_cex :
    split_comment_line (str "a") 1 0 = str "//\n// a\n"
    ∧ greedy 1 0 (splitWhitespace (str "a")) = [[], [str "a"]]
    ∧ (renderLine 0 ([] : List RStr)).length = 2 := by decide

/-- C6 (amended): provided the width budget is at least the comment-prefix
width `indent + 2`, every physical line produced by `split_comment_line` has
length at most the budget, except a line holding a single word whose length
plus the prefix and indent exceeds the budget; and words are never split or
reordered (flattening the lines yields exactly the input words). -/
theorem c6_width_budget (s : RStr) (m ind : Nat) (h : ind + 2 ≤ m) :
    split_comment_line s m ind =
      joinLines ((greedy m ind (splitWhitespace s)).map (renderLine ind)) ++ [ '\n' ]
    ∧ flattenWords (greedy m ind (splitWhitespace s)) = splitWhitespace s
    ∧ ∀ line ∈ greedy m ind (splitWhitespace s),
        (renderLine ind line).length ≤ m ∨ ∃ w, line = [w] ∧ m < ind + 3 + w.length := by
  refine ⟨scl_render s m ind, flattenWords_greedy m ind _, ?_⟩
  intro line hline
  refine greedyAux_lines_bound m ind (splitWhitespace s) [] (ind + 2) ?_ (Or.inl h) line hline
  rw [show ([] : List RStr).reverse = [] from rfl, renderLine_nil_length]

/-- C6 witness: the amended bound at a concrete input. -/
theorem c6_width_budget_witness :
    split_comment_line (str "hello world") 9 0 =
      joinLines ((greedy 9 0 (splitWhitespace (str "hello world"))).map (renderLine 0)) ++ [ '\n' ]
    ∧ flattenWords (greedy 9 0 (splitWhitespace (str "hello world"))) =
        splitWhitespace (str "hello world")
    ∧ ∀ line ∈ greedy 9 0 (splitWhitespace (str "hello world")),
        (renderLine 0 line).length ≤ 9 ∨ ∃ w, line = [w] ∧ 9 < 0 + 3 + w.length :=
  c6_width_budget (str "hello world") 9 0 (by decide)

/-- C7: `get_parent_name` returns the sentinel `SchemaElement` when the
ancestor chain reaches the schema root before any named ancestor; returns the
grandparent's name when the parent is unnamed (and not the schema root) but
the grandparent is named; and returns the sentinel `UnsupportedName` when the
chain ends without a named ancestor or schema root. -/
theorem c7_parent_name :
    (∀ (pre rest : List AncElem) (sch : AncElem),
        (∀ a ∈ pre, a.xsd_type ≠ ElementType.schema ∧ a.nameAttr = none) →
        sch.xsd_type = ElementType.schema →
        get_parent_name (pre ++ sch :: rest) = str "SchemaElement")
    ∧ (∀ (p g : AncElem) (rest : List AncElem) (nm : RStr),
        p.xsd_type ≠ ElementType.schema → p.nameAttr = none →
        g.xsd_type ≠ ElementType.schema → g.nameAttr = some nm →
        get_parent_name (p :: g :: rest) = nm)
    ∧ (∀ chain : List AncElem,
        (∀ a ∈ chain, a.xsd_type ≠ ElementType.schema ∧ a.nameAttr = none) →
        get_parent_name chain = str "UnsupportedName") := by
  refine ⟨?_, ?_, ?_⟩
  · intro pre
    induction pre with
    | nil =>
      intro rest sch _ hsch
      rw [List.nil_append, get_parent_name, if_pos hsch]
    | cons a tl ih =>
      intro rest sch h hsch
      have ha := h a (List.mem_cons_self a tl)
      rw [List.cons_append, get_parent_name, if_neg ha.1, ha.2]
      exact ih rest sch (fun d hd => h d (List.mem_cons_of_mem a hd)) hsch
  · intro p g rest nm hp1 hp2 hg1 hg2
    rw [get_parent_name, if_neg hp1, hp2]
    show get_parent_name (g :: rest) = nm
    rw [get_parent_name, if_neg hg1, hg2]
  · intro chain
    induction chain with
    | nil => intro _; rfl
    | cons a tl ih =>
      intro h
      have ha := h a (List.mem_cons_self a tl)
      rw [get_parent_name, if_neg ha.1, ha.2]
      exact ih (fun d hd => h d (List.mem_cons_of_mem a hd))

/-- C7 witness: the three cases at concrete ancestor chains. -/
theorem c7_parent_name_witness :
    get_parent_name [⟨ElementType.elementDecl, none⟩, ⟨ElementType.schema, none⟩] =
      str "SchemaElement"
    ∧ get_parent_name
        [⟨ElementType.elementDecl, none⟩, ⟨ElementType.elementDecl, some (str "Outer")⟩] =
      str "Outer"
    ∧ get_parent_name [⟨ElementType.elementDecl, none⟩] = str "UnsupportedName" :=
  ⟨c7_parent_name.1 [⟨ElementType.elementDecl, none⟩] [] ⟨ElementType.schema, none⟩
      (by decide) rfl,
   c7_parent_name.2.1 ⟨ElementType.elementDecl, none⟩
      ⟨ElementType.elementDecl, some (str "Outer")⟩ [] (str "Outer")
      (by decide) rfl (by decide) rfl,
   c7_parent_name.2.2 [⟨ElementType.elementDecl, none⟩] (by decide)⟩

/-- C8: `attributes_to_fields` succeeds and returns exactly one field record
per direct element child classified as an attribute declaration, in document
order, and no record for any other child: the result is the attribute-element
sublist of the children, in order, mapped to their parsed fields. -/
theorem c8_attr_fields (children : List ChildNode) (tns : Option Namespace) :
    attributes_to_fields children tns =
      some ((children.filter
          (fun n => n.is_element && n.xsd_type == ElementType.attributeDecl)).map
        (fun n => fieldFor n tns)) := by
  rw [attributes_to_fields]
  apply collectFields_attrs
  intro n hn
  have hmem := List.mem_filter.mp hn
  have := hmem.2
  simp only [Bool.and_eq_true, beq_iff_eq] at this
  exact this.2
